import Mathlib

/-!
Verification of the red-queen benchmark runner (`src/red_queen/runner.py`)
against its natural-language specification.

The development shallowly embeds the parts of `Runner` the claims are
about: the depth-proxy computation (`get_qubit_depths`,
`get_maximum_qubit_depth`, `get_circuit_depth`), the per-repetition metric
accumulation of `run_benchmark`, the result-file protocol of
`save_results`, and the aggregate statistics of
`calculate_aggregate_statistics`.  Wall-clock instants and memory readings
are environment inputs; they are modelled as rationals handed to the
embedded functions.  A Python exception is modelled as `none` /
`Except.error`.
-/

namespace RedQueen

/-- One operation line of the serialized (QASM) program, as the
`Preprocess` helper exposes it to `Runner.get_qubit_depths`.
Modelled from the spec: the `preprocessing` module is not part of the
repository sources; per the spec each line yields an operation name
(`get_op`) and the list of qubit ids it touches (`get_qubit_id`), and
`GATE_TABLE` is a fixed table of recognized operation names, modelled
here as the list `gt` of names passed to the depth functions. -/
structure Op where
  name : String
  qubits : List Nat
deriving DecidableEq

/-- One step of the per-qubit counter update of `runner.py` lines 383-387:
`if qubit not in qubit_depth: qubit_depth[qubit] = 0; qubit_depth[qubit] += 1`
on a Python dict, modelled as an insertion-ordered association list. -/
def bumpQubit : List (Nat × Nat) → Nat → List (Nat × Nat)
  | [], q => [(q, 1)]
  | (k, v) :: rest, q =>
      if k = q then (k, v + 1) :: rest else (k, v) :: bumpQubit rest q

/-- The body of the loop of `Runner.get_qubit_depths` (lines 376-387): an
operation whose name is not in the gate table is skipped (after printing a
notice), otherwise every qubit it touches has its counter bumped. -/
def depthStep (gt : List String) (acc : List (Nat × Nat)) (op : Op) :
    List (Nat × Nat) :=
  if op.name ∈ gt then op.qubits.foldl bumpQubit acc else acc

/-- `Runner.get_qubit_depths` (lines 370-388): walk the processed qasm
lines in file order, building the per-qubit operation counters. -/
def get_qubit_depths (gt : List String) (ops : List Op) : List (Nat × Nat) :=
  ops.foldl (depthStep gt) []

/-- Number of `"... not counted towards evaluation"` notices the walk of
`get_qubit_depths` prints (lines 378-381): one per line whose operation
name is absent from the gate table. -/
def unknownOpNotices (gt : List String) (ops : List Op) : Nat :=
  ops.countP (fun op => decide (op.name ∉ gt))

/-- `Runner.get_maximum_qubit_depth` (lines 390-399):
`max_value = max(qubit_depths.values())` — a `ValueError` on an empty
dict, modelled by `none` — and `max_keys` the first key carrying that
value. -/
def get_maximum_qubit_depth (gt : List String) (ops : List Op) :
    Option (Nat × Nat) :=
  let qubit_depths := get_qubit_depths gt ops
  match (qubit_depths.map Prod.snd).max? with
  | none => none
  | some max_value =>
      match qubit_depths.find? (fun p => p.2 == max_value) with
      | some p => some (p.1, max_value)
      | none => none

/-- `Runner.get_circuit_depth` (lines 365-368): the depth entry of
`get_maximum_qubit_depth`; `none` models the propagated `ValueError`. -/
def get_circuit_depth (gt : List String) (ops : List Op) : Option Nat :=
  (get_maximum_qubit_depth gt ops).map Prod.snd

/-- The per-benchmark metric sample lists of `self.metric_data[benchmark]`
(`runner.py` lines 179-185).  Times and memory readings are rationals,
depth samples are naturals. -/
structure BenchMetrics where
  total_time : List ℚ
  build_time : List ℚ
  transpile_time : List ℚ
  depth : List Nat
  memory_footprint : List ℚ
deriving DecidableEq

/-- The metric entry a benchmark gets in `Runner.preprocess_benchmarks`
(lines 179-185): empty sample lists except for the single build-time
sample `build_time - start_time` measured once at load. -/
def initMetricData (build_sample : ℚ) : BenchMetrics :=
  { total_time := []
    build_time := [build_sample]
    transpile_time := []
    depth := []
    memory_footprint := [] }

/-- The environment of one repetition of `Runner.run_benchmark`: the
memory delta the process-isolated profiler reports, the two
`time.perf_counter()` readings bracketing the in-process transpile call,
and the operation list of the serialized transpiled circuit that
`Preprocess` hands to the depth functions. -/
structure RepInput where
  memory : ℚ
  tStart : ℚ
  tEnd : ℚ
  ops : List Op
deriving DecidableEq

/-- `Runner.run_benchmark` (lines 286-363), restricted to one benchmark's
metric entry: append the memory sample, append the transpile sample
`end_time - start_time`, append the total-time sample
`end_time - start_time + build_time[-1] + transpile_time[-1]`
(lines 339-344, where `transpile_time[-1]` is the sample appended just
before), then append the depth of the transpiled circuit; a `ValueError`
raised inside the depth computation aborts the repetition (`none`). -/
def run_benchmark (gt : List String) (m : BenchMetrics) (inp : RepInput) :
    Option BenchMetrics :=
  let m1 := { m with
    memory_footprint := m.memory_footprint ++ [inp.memory] }
  let m2 := { m1 with
    transpile_time := m1.transpile_time ++ [inp.tEnd - inp.tStart] }
  let m3 := { m2 with
    total_time := m2.total_time ++
      [inp.tEnd - inp.tStart + m2.build_time.getLastD 0 +
        m2.transpile_time.getLastD 0] }
  match get_circuit_depth gt inp.ops with
  | none => none
  | some d => some { m3 with depth := m3.depth ++ [d] }

/-- The repetition loop of `Runner.run_benchmarks` (lines 200-204) over
one benchmark case: starting from the entry `preprocess_benchmarks`
created, run `run_benchmark` once per repetition input. -/
def run_benchmarks_case (gt : List String) (build_sample : ℚ)
    (reps : List RepInput) : Option BenchMetrics :=
  reps.foldlM (fun m inp => run_benchmark gt m inp) (initMetricData build_sample)

/-! ### The result store (`Runner.save_results`, lines 219-249)

The results directory is modelled as an association list from run index to
file content, a JSON array of records of an abstract type `α`
(`.DS_Store` has already been dropped, as `delete_ds_store` does). -/

/-- The results directory: run index `k` stands for `results_run{k}.json`,
the attached list is the file's parsed JSON array content. -/
abbrev Store (α : Type) : Type := List (Nat × List α)

/-- `len(self.list_files("results"))` (line 227). -/
def list_files {α : Type} (fs : Store α) : Nat := fs.length

/-- `open(path, "r")` followed by `json.load` (lines 236-237): `none`
models the `FileNotFoundError` on a missing file. -/
def read_file {α : Type} (fs : Store α) (i : Nat) : Option (List α) :=
  List.lookup i fs

/-- `open(path, "w")` followed by `json.dump` (lines 239-246): replace the
content when the file exists, otherwise create it. -/
def write_file {α : Type} (fs : Store α) (i : Nat) (content : List α) :
    Store α :=
  if fs.any (fun p => p.1 == i) then
    fs.map (fun p => if p.1 == i then (i, content) else p)
  else fs ++ [(i, content)]

/-- `Runner.save_results` (lines 219-249): `run_number` is the file count
plus one; with the secondary flag the record is appended to
`results_run{run_number - 1}.json` (a missing file raises, modelled by
`Except.error`, and nothing is written); without it a fresh one-element
array is written to `results_run{run_number}.json`. -/
def save_results {α : Type} (fs : Store α) (second_compiler_readout : Bool)
    (record : α) : Except String (Store α) :=
  let run_number := list_files fs + 1
  if second_compiler_readout then
    match read_file fs (run_number - 1) with
    | none => .error "FileNotFoundError"
    | some data => .ok (write_file fs (run_number - 1) (data ++ [record]))
  else
    .ok (write_file fs run_number [record])

/-! ### Aggregate statistics (`Runner.calculate_aggregate_statistics`,
lines 401-425), the numpy reductions applied to one metric's sample
list. -/

/-- `np.mean`: the sum divided by the length. -/
def np_mean (l : List ℚ) : ℚ := l.sum / l.length

/-- The ascending sort `np.median` performs internally. -/
def np_sort (l : List ℚ) : List ℚ := l.insertionSort (· ≤ ·)

/-- `np.median`: the middle element of the sorted sample for odd length,
the average of the two middle elements for even length. -/
def np_median (l : List ℚ) : ℚ :=
  if (np_sort l).length % 2 = 1 then (np_sort l).getD ((np_sort l).length / 2) 0
  else ((np_sort l).getD ((np_sort l).length / 2 - 1) 0 +
    (np_sort l).getD ((np_sort l).length / 2) 0) / 2

/-- `np.min`: the least sample. -/
def np_min (l : List ℚ) : ℚ := l.min?.getD 0

/-- `np.max`: the greatest sample. -/
def np_max (l : List ℚ) : ℚ := l.max?.getD 0

/-- `np.var` with its default `ddof=0`: the mean of the squared
deviations from the mean. -/
def np_var (l : List ℚ) : ℚ := np_mean (l.map (fun x => (x - np_mean l) ^ 2))

/-- `np.std`: the square root of `np.var`. -/
noncomputable def np_std (l : List ℚ) : ℝ := Real.sqrt (np_var l)

/-- The population variance as the spec words it: the sum of squared
deviations from the mean divided by the sample count `n` (not `n - 1`).
Stated from the spec, to be compared with the source-derived `np_var`. -/
def populationVariance (l : List ℚ) : ℚ :=
  (l.map (fun x => (x - np_mean l) ^ 2)).sum / l.length

/-- The keys of each metric's `aggregate` sub-object, in the order
`calculate_aggregate_statistics` creates them (lines 410-425). -/
def aggregateKeys : List String :=
  ["mean", "median", "range", "variance", "standard_deviation"]

/-- The two fixed top-level keys of `self.metric_data` as
`Runner.__init__` creates it (line 114), with their values:
`{"metadata: ": self.compiler_dict, "backend": self.backend}`. -/
def metricDataBase {α : Type} (compiler_dict backend : α) :
    List (String × α) :=
  [("metadata: ", compiler_dict), ("backend", backend)]

/-! ## Helper lemmas -/

theorem depthStep_unknown (gt : List String) (op : Op) (h : op.name ∉ gt)
    (acc : List (Nat × Nat)) : depthStep gt acc op = acc := by
  simp [depthStep, h]

theorem foldl_depthStep_unknown (gt : List String) :
    ∀ (ops : List Op), (∀ op ∈ ops, op.name ∉ gt) →
      ∀ acc, ops.foldl (depthStep gt) acc = acc := by
  intro ops
  induction ops with
  | nil => intro _ acc; rfl
  | cons a t ih =>
      intro hh acc
      rw [List.foldl_cons, depthStep_unknown gt a (hh a (by simp))]
      exact ih (fun op hop => hh op (by simp [hop])) acc

/-- C2: the depth proxy walks the serialized operation list in file order,
counting, for each operation whose name is in the gate table, one unit on
every qubit id it touches, and returns the maximum per-qubit counter: on
`[h q0; cx q0,q1; x q1]` with gate table `{h, cx, x}` the counters are 2
for qubit 0 and 2 for qubit 1, and the returned depth is 2. -/
theorem circuit_depth_example :
    get_qubit_depths ["h", "cx", "x"]
        [⟨"h", [0]⟩, ⟨"cx", [0, 1]⟩, ⟨"x", [1]⟩] = [(0, 2), (1, 2)] ∧
    get_circuit_depth ["h", "cx", "x"]
        [⟨"h", [0]⟩, ⟨"cx", [0, 1]⟩, ⟨"x", [1]⟩] = some 2 :=
  ⟨by decide, by decide⟩

/-- C4: a line whose operation name is absent from the gate table is
skipped with exactly one non-fatal notice and excluded from every
per-qubit counter: inserting it anywhere leaves the per-qubit counters and
the computed depth unchanged, and adds one notice. -/
theorem unknown_op_skipped (gt : List String) (l1 l2 : List Op) (op : Op)
    (h : op.name ∉ gt) :
    get_qubit_depths gt (l1 ++ op :: l2) = get_qubit_depths gt (l1 ++ l2) ∧
    get_circuit_depth gt (l1 ++ op :: l2) = get_circuit_depth gt (l1 ++ l2) ∧
    unknownOpNotices gt (l1 ++ op :: l2) =
      unknownOpNotices gt (l1 ++ l2) + 1 := by
  have hd : get_qubit_depths gt (l1 ++ op :: l2) =
      get_qubit_depths gt (l1 ++ l2) := by
    simp only [get_qubit_depths, List.foldl_append, List.foldl_cons,
      depthStep_unknown gt op h]
  refine ⟨hd, ?_, ?_⟩
  · simp only [get_circuit_depth, get_maximum_qubit_depth, hd]
  · simp [unknownOpNotices, List.countP_append, List.countP_cons, h]
    omega

/-- C10: a serialized operation list in which no operation name is in the
gate table (an empty program included) leaves every per-qubit counter
absent, so `max` is taken over an empty collection and the depth
computation raises (`none`) instead of returning a depth, aborting the
repetition. -/
theorem empty_depth_aborts (gt : List String) (m : BenchMetrics)
    (inp : RepInput) (h : ∀ op ∈ inp.ops, op.name ∉ gt) :
    get_qubit_depths gt inp.ops = [] ∧
    get_circuit_depth gt inp.ops = none ∧
    run_benchmark gt m inp = none := by
  have hq : get_qubit_depths gt inp.ops = [] :=
    foldl_depthStep_unknown gt inp.ops h []
  have hc : get_circuit_depth gt inp.ops = none := by
    simp [get_circuit_depth, get_maximum_qubit_depth, hq]
  refine ⟨hq, hc, ?_⟩
  simp [run_benchmark, hc]

/-- Witness for `unknown_op_skipped`: inserting `bad q0` into `[h q0]`
under gate table `{h}`. -/
theorem unknown_op_skipped_witness :
    get_qubit_depths ["h"] ([⟨"h", [0]⟩] ++ ⟨"bad", [0]⟩ :: []) =
      get_qubit_depths ["h"] ([⟨"h", [0]⟩] ++ []) ∧
    get_circuit_depth ["h"] ([⟨"h", [0]⟩] ++ ⟨"bad", [0]⟩ :: []) =
      get_circuit_depth ["h"] ([⟨"h", [0]⟩] ++ []) ∧
    unknownOpNotices ["h"] ([⟨"h", [0]⟩] ++ ⟨"bad", [0]⟩ :: []) =
      unknownOpNotices ["h"] ([⟨"h", [0]⟩] ++ []) + 1 :=
  unknown_op_skipped ["h"] [⟨"h", [0]⟩] [] ⟨"bad", [0]⟩ (by decide)

/-- Witness for `empty_depth_aborts`: a repetition whose transpiled
circuit serializes to the single unrecognized line `bad q0`. -/
theorem empty_depth_aborts_witness :
    get_qubit_depths ["h"] (RepInput.mk 0 0 1 [⟨"bad", [0]⟩]).ops = [] ∧
    get_circuit_depth ["h"] (RepInput.mk 0 0 1 [⟨"bad", [0]⟩]).ops = none ∧
    run_benchmark ["h"] (initMetricData 1) (RepInput.mk 0 0 1 [⟨"bad", [0]⟩]) =
      none :=
  empty_depth_aborts ["h"] (initMetricData 1) (RepInput.mk 0 0 1 [⟨"bad", [0]⟩])
    (by decide)

/-- One repetition of `run_benchmark` that reaches the depth append grows
`total_time`, `transpile_time`, `depth` and `memory_footprint` by one
sample each and leaves `build_time` untouched. -/
theorem run_benchmark_growth (gt : List String) (m m' : BenchMetrics)
    (inp : RepInput) (h : run_benchmark gt m inp = some m') :
    m'.total_time.length = m.total_time.length + 1 ∧
    m'.transpile_time.length = m.transpile_time.length + 1 ∧
    m'.depth.length = m.depth.length + 1 ∧
    m'.memory_footprint.length = m.memory_footprint.length + 1 ∧
    m'.build_time = m.build_time := by
  unfold run_benchmark at h
  cases hg : get_circuit_depth gt inp.ops with
  | none => rw [hg] at h; exact absurd h (by simp)
  | some d =>
      rw [hg] at h
      obtain rfl := (Option.some.inj h).symm
      simp

/-- The repetition fold of `run_benchmarks_case`, from an arbitrary
starting entry. -/
theorem run_case_fold (gt : List String) :
    ∀ (reps : List RepInput) (m0 m : BenchMetrics),
      reps.foldlM (fun m inp => run_benchmark gt m inp) m0 = some m →
      m.total_time.length = m0.total_time.length + reps.length ∧
      m.transpile_time.length = m0.transpile_time.length + reps.length ∧
      m.depth.length = m0.depth.length + reps.length ∧
      m.memory_footprint.length = m0.memory_footprint.length + reps.length ∧
      m.build_time = m0.build_time := by
  intro reps
  induction reps with
  | nil =>
      intro m0 m h
      obtain rfl := (Option.some.inj h).symm
      simp
  | cons a t ih =>
      intro m0 m h
      rw [List.foldlM_cons] at h
      cases h1 : run_benchmark gt m0 a with
      | none => rw [h1] at h; exact absurd h (by simp)
      | some m1 =>
          rw [h1] at h
          simp only [Option.bind_eq_bind, Option.some_bind] at h
          obtain ⟨g1, g2, g3, g4, g5⟩ := run_benchmark_growth gt m0 m1 a h1
          obtain ⟨t1, t2, t3, t4, t5⟩ := ih m1 m h
          refine ⟨?_, ?_, ?_, ?_, ?_⟩ <;> simp [t1, t2, t3, t4, t5, g1, g2, g3, g4, g5] <;> omega

/-- C3 (amended): after a full run over one benchmark case with `n`
repetitions, `total_time`, `transpile_time`, `depth` and
`memory_footprint` each hold exactly `n` samples, while `build_time`
holds exactly its single load-time sample. -/
theorem metric_lengths_after_run (gt : List String) (b : ℚ)
    (reps : List RepInput) (m : BenchMetrics)
    (h : run_benchmarks_case gt b reps = some m) :
    m.total_time.length = reps.length ∧
    m.transpile_time.length = reps.length ∧
    m.depth.length = reps.length ∧
    m.memory_footprint.length = reps.length ∧
    m.build_time.length = 1 := by
  obtain ⟨t1, t2, t3, t4, t5⟩ :=
    run_case_fold gt reps (initMetricData b) m h
  simp [initMetricData] at t1 t2 t3 t4 t5
  exact ⟨t1, t2, t3, t4, by simp [t5]⟩

/-- Witness for `metric_lengths_after_run`: a two-repetition run. -/
theorem metric_lengths_after_run_witness :
    (⟨[3, 3], [1], [1, 1], [1, 1], [0, 0]⟩ : BenchMetrics).total_time.length =
      [RepInput.mk 0 0 1 [⟨"h", [0]⟩], RepInput.mk 0 0 1 [⟨"h", [0]⟩]].length ∧
    (⟨[3, 3], [1], [1, 1], [1, 1], [0, 0]⟩ : BenchMetrics).transpile_time.length =
      [RepInput.mk 0 0 1 [⟨"h", [0]⟩], RepInput.mk 0 0 1 [⟨"h", [0]⟩]].length ∧
    (⟨[3, 3], [1], [1, 1], [1, 1], [0, 0]⟩ : BenchMetrics).depth.length =
      [RepInput.mk 0 0 1 [⟨"h", [0]⟩], RepInput.mk 0 0 1 [⟨"h", [0]⟩]].length ∧
    (⟨[3, 3], [1], [1, 1], [1, 1], [0, 0]⟩ : BenchMetrics).memory_footprint.length =
      [RepInput.mk 0 0 1 [⟨"h", [0]⟩], RepInput.mk 0 0 1 [⟨"h", [0]⟩]].length ∧
    (⟨[3, 3], [1], [1, 1], [1, 1], [0, 0]⟩ : BenchMetrics).build_time.length = 1 :=
  metric_lengths_after_run ["h"] 1
    [RepInput.mk 0 0 1 [⟨"h", [0]⟩], RepInput.mk 0 0 1 [⟨"h", [0]⟩]]
    (⟨[3, 3], [1], [1, 1], [1, 1], [0, 0]⟩ : BenchMetrics)
    (by simp [run_benchmarks_case, run_benchmark, initMetricData,
        get_circuit_depth, get_maximum_qubit_depth, get_qubit_depths,
        depthStep, bumpQubit, List.getLastD]
        norm_num)

/-- C3 as stated fails on the code: a full two-repetition run leaves
`build_time` with its single load-time sample, not two. -/
theorem metric_lengths_cex :
    run_benchmarks_case ["h"] 1
        [RepInput.mk 0 0 1 [⟨"h", [0]⟩], RepInput.mk 0 0 1 [⟨"h", [0]⟩]] =
      some (⟨[3, 3], [1], [1, 1], [1, 1], [0, 0]⟩ : BenchMetrics) ∧
    ¬ ((⟨[3, 3], [1], [1, 1], [1, 1], [0, 0]⟩ : BenchMetrics).build_time.length =
        [RepInput.mk 0 0 1 [⟨"h", [0]⟩], RepInput.mk 0 0 1 [⟨"h", [0]⟩]].length) := by
  constructor
  · simp [run_benchmarks_case, run_benchmark, initMetricData,
      get_circuit_depth, get_maximum_qubit_depth, get_qubit_depths,
      depthStep, bumpQubit, List.getLastD]
    norm_num
  · decide

/-- C1: the `total_time` sample appended by the timing pass equals the
case's one-time `build_time` sample plus twice the `transpile_time`
sample of the same repetition (the transpile interval is counted twice on
top of the one-time build time). -/
theorem run_benchmark_total_time_doubled (gt : List String)
    (m m' : BenchMetrics) (inp : RepInput) (b : ℚ)
    (hb : m.build_time = [b])
    (h : run_benchmark gt m inp = some m') :
    m'.transpile_time = m.transpile_time ++ [inp.tEnd - inp.tStart] ∧
    m'.total_time = m.total_time ++ [b + 2 * (inp.tEnd - inp.tStart)] := by
  unfold run_benchmark at h
  cases hg : get_circuit_depth gt inp.ops with
  | none => rw [hg] at h; exact absurd h (by simp)
  | some d =>
      rw [hg] at h
      obtain rfl := (Option.some.inj h).symm
      clear h
      refine ⟨by simp, ?_⟩
      have h1 : ([b] : List ℚ).getLastD 0 = b := rfl
      have h2 : (m.transpile_time ++ [inp.tEnd - inp.tStart]).getLastD 0 =
          inp.tEnd - inp.tStart := List.getLastD_concat _ _ _
      simp [hb, h1, h2]
      ring

/-- Witness for `run_benchmark_total_time_doubled`: one repetition with
build sample 1 and transpile interval 1; the recorded total is 3. -/
theorem run_benchmark_total_time_doubled_witness :
    (⟨[3], [1], [1], [1], [0]⟩ : BenchMetrics).transpile_time =
      (initMetricData 1).transpile_time ++ [(1 : ℚ) - 0] ∧
    (⟨[3], [1], [1], [1], [0]⟩ : BenchMetrics).total_time =
      (initMetricData 1).total_time ++ [1 + 2 * ((1 : ℚ) - 0)] :=
  run_benchmark_total_time_doubled ["h"] (initMetricData 1)
    (⟨[3], [1], [1], [1], [0]⟩ : BenchMetrics)
    (RepInput.mk 0 0 1 [⟨"h", [0]⟩]) 1 rfl
    (by simp [run_benchmark, initMetricData, get_circuit_depth,
        get_maximum_qubit_depth, get_qubit_depths, depthStep, bumpQubit,
        List.getLastD]
        norm_num)


/-! ### Result-store lemmas -/

theorem lookup_eq_none_of_not_mem_keys {α : Type} (fs : Store α) (i : Nat)
    (h : i ∉ fs.map Prod.fst) : List.lookup i fs = none := by
  rw [List.lookup_eq_none_iff]
  intro p hp
  simp only [bne_iff_ne, ne_eq]
  intro he
  exact h (by simpa [he] using List.mem_map_of_mem Prod.fst hp)

theorem lookup_map_replace {α : Type} :
    ∀ (fs : Store α) (i : Nat) (c : List α),
      fs.any (fun p => p.1 == i) = true →
      List.lookup i (fs.map (fun p => if p.1 == i then (i, c) else p)) =
        some c := by
  intro fs
  induction fs with
  | nil => intro i c h; exact absurd h (by simp)
  | cons p t ih =>
      intro i c h
      obtain ⟨k, v⟩ := p
      by_cases hp : k = i
      · have hb : (k == i) = true := by simp [hp]
        simp only [List.map_cons, hb, if_true, List.lookup_cons, beq_self_eq_true]
      · have hb : (k == i) = false := by simp [hp]
        have ht : t.any (fun q => q.1 == i) = true := by
          simpa [List.any_cons, hb] using h
        have hne : (i == k) = false := by simp [Ne.symm hp]
        simp only [List.map_cons, hb, Bool.false_eq_true, if_false,
          List.lookup_cons, hne]
        exact ih i c ht

/-- The primary branch of `save_results` on a results directory whose
files are exactly `results_run1 .. results_runN`: a fresh file indexed
`n + 1` is appended, holding the one-element array. -/
theorem save_primary_eq {α : Type} (fs : Store α) (n : Nat) (record : α)
    (h : fs.map Prod.fst = List.range' 1 n) :
    save_results fs false record = .ok (fs ++ [(n + 1, [record])]) := by
  have hlen : fs.length = n := by
    have := congrArg List.length h
    simpa [List.length_range'] using this
  have hmem : (n + 1) ∉ fs.map Prod.fst := by
    rw [h]
    simp [List.mem_range']
    omega
  have hany : fs.any (fun p => p.1 == n + 1) = false := by
    rw [List.any_eq_false]
    intro p hp
    simp only [beq_iff_eq]
    intro hpe
    exact hmem (by simpa [hpe] using List.mem_map_of_mem Prod.fst hp)
  simp [save_results, list_files, hlen, write_file, hany]

/-- C7: with the secondary flag false and a results directory holding
exactly `results_run1 .. results_runN`, `save_results` creates the fresh
file `results_run{n+1}` — one past the highest existing index — holding
the one-element array, and overwrites no existing file. -/
theorem save_results_primary_fresh_index {α : Type} (fs : Store α) (n : Nat)
    (record : α) (h : fs.map Prod.fst = List.range' 1 n) :
    save_results fs false record = .ok (fs ++ [(n + 1, [record])]) ∧
    (n + 1) ∉ fs.map Prod.fst ∧
    ((fs = [] ∧ n = 0) ∨ (fs.map Prod.fst).max? = some n) := by
  refine ⟨save_primary_eq fs n record h, ?_, ?_⟩
  · rw [h]
    simp [List.mem_range']
    omega
  · cases n with
    | zero =>
        left
        have : fs.map Prod.fst = [] := by simpa using h
        exact ⟨List.map_eq_nil_iff.mp this, rfl⟩
    | succ k =>
        right
        rw [h, List.max?_eq_some_iff']
        constructor
        · rw [List.mem_range']
          exact ⟨k, by omega, by omega⟩
        · intro b hb
          rw [List.mem_range'] at hb
          obtain ⟨i, hi, rfl⟩ := hb
          omega

/-- Witness for `save_results_primary_fresh_index`: one existing file
`results_run1`. -/
theorem save_results_primary_fresh_index_witness :
    save_results ([(1, [5])] : Store Nat) false 7 =
      .ok ([(1, [5])] ++ [(1 + 1, [7])]) ∧
    (1 + 1) ∉ ([(1, [5])] : Store Nat).map Prod.fst ∧
    ((([(1, [5])] : Store Nat) = [] ∧ 1 = 0) ∨
      (([(1, [5])] : Store Nat).map Prod.fst).max? = some 1) :=
  save_results_primary_fresh_index ([(1, [5])] : Store Nat) 1 7 (by decide)

/-- C5: on a results directory holding exactly
`results_run1 .. results_runN`, saving a primary record and then the
paired secondary record leaves `results_run{n+1}` holding exactly the
two-element array `[primary, secondary]`, in that order. -/
theorem save_results_round_trip {α : Type} (fs : Store α) (n : Nat)
    (p s : α) (h : fs.map Prod.fst = List.range' 1 n) :
    ∃ fs' fs'', save_results fs false p = .ok fs' ∧
      save_results fs' true s = .ok fs'' ∧
      read_file fs'' (n + 1) = some [p, s] := by
  have hlen : fs.length = n := by
    have := congrArg List.length h
    simpa [List.length_range'] using this
  have hmem : (n + 1) ∉ fs.map Prod.fst := by
    rw [h]
    simp [List.mem_range']
    omega
  have hnone : List.lookup (n + 1) fs = none :=
    lookup_eq_none_of_not_mem_keys fs (n + 1) hmem
  have hread : read_file (fs ++ [(n + 1, [p])]) (n + 1) = some [p] := by
    unfold read_file
    rw [List.lookup_append, hnone]
    simp [List.lookup_cons]
  have hany : (fs ++ [(n + 1, [p])]).any (fun q => q.1 == n + 1) = true := by
    simp
  refine ⟨fs ++ [(n + 1, [p])],
    write_file (fs ++ [(n + 1, [p])]) (n + 1) ([p] ++ [s]),
    save_primary_eq fs n p h, ?_, ?_⟩
  · have hlen' : (fs ++ [(n + 1, [p])]).length = n + 1 := by simp [hlen]
    simp only [save_results, list_files, hlen', if_true, Nat.add_sub_cancel,
      hread]
  · unfold read_file write_file
    rw [if_pos hany]
    exact lookup_map_replace (fs ++ [(n + 1, [p])]) (n + 1) ([p] ++ [s]) hany

/-- Witness for `save_results_round_trip`: starting from an empty results
directory. -/
theorem save_results_round_trip_witness :
    ∃ fs' fs'', save_results ([] : Store Nat) false 5 = .ok fs' ∧
      save_results fs' true 6 = .ok fs'' ∧
      read_file fs'' (0 + 1) = some [5, 6] :=
  save_results_round_trip ([] : Store Nat) 0 5 6 (by decide)

/-- C6: invoking `save_results` with the secondary-compiler flag when no
result file exists raises the fatal `FileNotFoundError` (the read of the
supposed primary file fails before anything is written) and produces no
written store. -/
theorem save_results_secondary_no_prior {α : Type} (record : α) :
    save_results ([] : Store α) true record = .error "FileNotFoundError" :=
  rfl

/-- C9: the persisted record's top-level key holding the compiler
identity is literally `"metadata: "` (with a trailing colon and space,
`runner.py` line 114), not `"metadata"` as the spec names it; the
`backend` key and the per-metric `aggregate` keys are as specified. -/
theorem metric_record_metadata_key_bug :
    (metricDataBase "compiler_dict" "backend_name").lookup "metadata" =
      none ∧
    (metricDataBase "compiler_dict" "backend_name").lookup "metadata: " =
      some "compiler_dict" ∧
    (metricDataBase "compiler_dict" "backend_name").lookup "backend" =
      some "backend_name" ∧
    aggregateKeys = ["mean", "median", "range", "variance",
      "standard_deviation"] :=
  ⟨by decide, by decide, by decide, rfl⟩

/-! ### Aggregate-statistics lemmas -/

instance instAntisymmRatLe : Std.Antisymm ((· ≤ ·) : ℚ → ℚ → Prop) :=
  ⟨fun h1 h2 => le_antisymm h1 h2⟩

theorem np_min_spec (l : List ℚ) (h : l ≠ []) :
    np_min l ∈ l ∧ ∀ x ∈ l, np_min l ≤ x := by
  cases hm : l.min? with
  | none => exact absurd (List.min?_eq_none_iff.mp hm) h
  | some a =>
      have hiff := (List.min?_eq_some_iff (fun q => le_refl q)
        (fun a b => min_choice a b) (fun a b c => le_min_iff)).mp hm
      simpa [np_min, hm] using hiff

theorem np_max_spec (l : List ℚ) (h : l ≠ []) :
    np_max l ∈ l ∧ ∀ x ∈ l, x ≤ np_max l := by
  cases hm : l.max? with
  | none => exact absurd (List.max?_eq_none_iff.mp hm) h
  | some a =>
      have hiff := (List.max?_eq_some_iff (fun q => le_refl q)
        (fun a b => max_choice a b) (fun a b c => max_le_iff)).mp hm
      simpa [np_max, hm] using hiff

theorem np_median_bounds (l : List ℚ) (h : l ≠ []) :
    np_min l ≤ np_median l ∧ np_median l ≤ np_max l := by
  obtain ⟨_, hmin⟩ := np_min_spec l h
  obtain ⟨_, hmax⟩ := np_max_spec l h
  have hperm : (np_sort l).Perm l := List.perm_insertionSort _ l
  have hlen : (np_sort l).length = l.length := hperm.length_eq
  have hpos : 0 < (np_sort l).length := by
    rw [hlen]
    exact List.length_pos.mpr h
  have hget : ∀ k, (hk : k < (np_sort l).length) →
      np_min l ≤ (np_sort l).getD k 0 ∧ (np_sort l).getD k 0 ≤ np_max l := by
    intro k hk
    rw [List.getD_eq_getElem _ _ hk]
    have hm : (np_sort l)[k] ∈ l := hperm.mem_iff.mp (List.getElem_mem hk)
    exact ⟨hmin _ hm, hmax _ hm⟩
  have hhalf : (np_sort l).length / 2 < (np_sort l).length :=
    Nat.div_lt_self hpos (by norm_num)
  unfold np_median
  by_cases hodd : (np_sort l).length % 2 = 1
  · simp only [hodd, if_true]
    exact hget _ hhalf
  · simp only [hodd, if_false]
    have h1 := hget ((np_sort l).length / 2 - 1)
      (lt_of_le_of_lt (Nat.sub_le _ _) hhalf)
    have h2 := hget ((np_sort l).length / 2) hhalf
    constructor
    · linarith [h1.1, h2.1]
    · linarith [h1.2, h2.2]

theorem np_mean_bounds (l : List ℚ) (h : l ≠ []) :
    np_min l ≤ np_mean l ∧ np_mean l ≤ np_max l := by
  obtain ⟨_, hmin⟩ := np_min_spec l h
  obtain ⟨_, hmax⟩ := np_max_spec l h
  have hn : 0 < (l.length : ℚ) := by
    exact_mod_cast List.length_pos.mpr h
  have hsum_le : l.sum ≤ l.length • np_max l := List.sum_le_card_nsmul l _ hmax
  have hle_sum : l.length • np_min l ≤ l.sum := List.card_nsmul_le_sum l _ hmin
  rw [nsmul_eq_mul] at hsum_le hle_sum
  unfold np_mean
  constructor
  · rw [le_div_iff₀ hn]
    linarith [mul_comm (np_min l) ((l.length : ℚ))]
  · rw [div_le_iff₀ hn]
    linarith [mul_comm (np_max l) ((l.length : ℚ))]

theorem np_var_nonneg (l : List ℚ) : 0 ≤ np_var l := by
  unfold np_var np_mean
  apply div_nonneg
  · apply List.sum_nonneg
    intro x hx
    simp only [List.mem_map] at hx
    obtain ⟨y, _, rfl⟩ := hx
    positivity
  · positivity

theorem np_var_eq_population (l : List ℚ) :
    np_var l = populationVariance l := by
  simp [np_var, populationVariance, np_mean]

/-- C8: on every non-empty sample the aggregates satisfy
`min ≤ median ≤ max` with the mean inside `[min, max]`; the variance is
the population variance (squared deviations divided by the sample count)
and the standard deviation is its non-negative square root. -/
theorem aggregate_stats_bounds (l : List ℚ) (h : l ≠ []) :
    np_min l ≤ np_median l ∧ np_median l ≤ np_max l ∧
    np_min l ≤ np_mean l ∧ np_mean l ≤ np_max l ∧
    np_var l = populationVariance l ∧
    np_std l ^ 2 = ((np_var l : ℚ) : ℝ) ∧ 0 ≤ np_std l := by
  obtain ⟨hm1, hm2⟩ := np_median_bounds l h
  obtain ⟨he1, he2⟩ := np_mean_bounds l h
  refine ⟨hm1, hm2, he1, he2, np_var_eq_population l, ?_, Real.sqrt_nonneg _⟩
  exact Real.sq_sqrt (by exact_mod_cast np_var_nonneg l)

/-- Witness for `aggregate_stats_bounds`: the sample `[3, 1, 2]`. -/
theorem aggregate_stats_bounds_witness :
    np_min [3, 1, 2] ≤ np_median [3, 1, 2] ∧
    np_median [3, 1, 2] ≤ np_max [3, 1, 2] ∧
    np_min [3, 1, 2] ≤ np_mean [3, 1, 2] ∧
    np_mean [3, 1, 2] ≤ np_max [3, 1, 2] ∧
    np_var [3, 1, 2] = populationVariance [3, 1, 2] ∧
    np_std [3, 1, 2] ^ 2 = ((np_var [3, 1, 2] : ℚ) : ℝ) ∧
    0 ≤ np_std [3, 1, 2] :=
  aggregate_stats_bounds [3, 1, 2] (by decide)

end RedQueen
